import Mathlib

/-!
# Verification of the enaml-web reactive tag tree (`web/components/html.py`)

Shallow embedding of the change-tracking core of `src/web/components/html.py`:
the `Tag` class's attribute-observation handler (`_update_proxy`), the
structural-diff callbacks (`child_added`, `child_moved`, `child_removed`),
the notification relay (`_notify_modified`) and the activation path
(`prepare`).

Modelling notes.

* A child node is represented by `Child`: either a `Tag` child, carried as
  its `id` string together with the markup string its `render()` call
  returns (the renderer — the external `proxy` capability — produces that
  markup, so it is opaque data here), or a non-`Tag` "pattern" child,
  carried as a bare token standing for Python object identity.
* A `Tag`'s observable state is `Tag`: its `id`, its other observed
  attributes as an association list, its ordered `children`, and the
  `is_initialized` / `proxy_is_active` lifecycle flags.  The `id` attribute
  is held in the `id` field (the spec declares it immutable once assigned);
  `attrs` models the remaining observed attributes.
* Calls into the renderer capability are recorded as `ProxyOp` values and
  change records passed to `_notify_modified` as `ChangeRecord` values, so
  that order ("renderer updated first") and multiplicity ("exactly one
  record") are part of the embedded semantics.
* The enaml/atom framework code that surrounds the repository's handlers
  (observer dispatch on attribute assignment, child insertion/removal before
  the `child_*` callbacks fire, `initialize`/`activate_proxy`,
  `root_object`) is not under `src/`; the wrapper operations that model it
  are marked `Modelled from the spec:` in their doc comments.
-/

namespace EnamlWeb

/-- A child entry of a `Tag`'s `children` list.  `tag id markup` is a `Tag`
child with the given `id` whose `render()` returns `markup`; `pattern tok`
is a non-`Tag` child ("pattern node"), `tok` standing for object identity. -/
inductive Child where
  | tag (id : String) (markup : String)
  | pattern (tok : Nat)
  deriving DecidableEq, Repr

/-- `isinstance(child, Tag)` -/
def Child.isTag : Child → Bool
  | .tag _ _ => true
  | .pattern _ => false

/-- `child.id` (only read on `Tag` children in the source). -/
def Child.idOf : Child → String
  | .tag i _ => i
  | .pattern _ => ""

/-- `child.render()`: the markup string the child's renderer produces. -/
def Child.markupOf : Child → String
  | .tag _ m => m
  | .pattern _ => ""

/-- The change dict passed to `_notify_modified`.  The source stores the
`before` key only when an anchor is found; `none` models the absent key. -/
structure ChangeRecord where
  id : String
  type : String
  name : String
  value : String
  before : Option String
  deriving DecidableEq, Repr

/-- A call into the renderer capability (the `proxy` object). -/
inductive ProxyOp where
  /-- `getattr(self.proxy, 'set_' + name)(value)` — the attribute-specific
  setter. -/
  | setSpecific (name : String) (value : String)
  /-- `self.proxy.set_attribute(name, value)` — the generic fallback. -/
  | setAttribute (name : String) (value : String)
  /-- `activate_proxy()` turning the renderer active. -/
  | activate
  deriving DecidableEq, Repr

/-- An observable effect of a mutation: a renderer call or a change record
handed to `_notify_modified`. -/
inductive Event where
  | proxy (op : ProxyOp)
  | emit (r : ChangeRecord)
  deriving DecidableEq, Repr

/-- Observable state of one `Tag` object. -/
structure Tag where
  id : String
  attrs : List (String × String)
  children : List Child
  is_initialized : Bool
  proxy_is_active : Bool
  deriving DecidableEq, Repr

/-- `children.index(child)` — index of the first occurrence (Python list
equality search); returns the length when absent (the source only calls it
on present children). -/
def idxOf : List Child → Child → Nat
  | [], _ => 0
  | x :: xs, a => if x = a then 0 else idxOf xs a + 1

/-- The anchor-scan loop of `child_added` / `child_moved`: walk a suffix of
`children`, skip non-`Tag` entries, and return the id of the first `Tag`
entry, if any. -/
def findAnchor : List Child → Option String
  | [] => none
  | c :: rest => if c.isTag then some c.idOf else findAnchor rest

/-- The full anchor computation: scan `children` strictly after the first
occurrence of `child` (`i = children.index(child) + 1` in the source). -/
def anchorAfter (children : List Child) (child : Child) : Option String :=
  findAnchor (children.drop (idxOf children child + 1))

/-- `Tag._update_proxy` (html.py lines 94-115): on a change event of type
`update` while the proxy is active, update the renderer — through the
specific setter `set_<name>` when the proxy exposes one (`hasSetter name`),
else through `set_attribute` — and then hand an update record to
`_notify_modified`.  Any other event type, or an inactive proxy, does
nothing.  `t`, `name`, `value` are the `type`/`name`/`value` entries of the
atom change dict. -/
def Tag.update_proxy (self : Tag) (hasSetter : String → Bool)
    (t : String) (name : String) (value : String) : List Event :=
  if t = "update" && self.proxy_is_active then
    [Event.proxy
      (if hasSetter name then ProxyOp.setSpecific name value
       else ProxyOp.setAttribute name value),
     Event.emit
      { id := self.id, type := t, name := name, value := value,
        before := none }]
  else []

/-- `Tag.child_added` (html.py lines 133-154): when the added child is a
`Tag` and the proxy is active, build an `added` record carrying the parent's
`id`, the child's rendered markup, and the anchor found by scanning the
children after the child's position; otherwise do nothing.  The child is
already in `self.children` when this callback runs. -/
def Tag.child_added (self : Tag) (child : Child) : List ChangeRecord :=
  if child.isTag && self.proxy_is_active then
    [{ id := self.id, type := "added", name := "children",
       value := child.markupOf,
       before := anchorAfter self.children child }]
  else []

/-- Result of the `child_moved` callback: whether `self.proxy.child_moved`
was invoked, and the records handed to `_notify_modified`. -/
structure MoveCall where
  proxyMoveCalled : Bool
  records : List ChangeRecord
  deriving DecidableEq, Repr

/-- `Tag.child_moved` (html.py lines 156-178): when the moved child is a
`Tag` and the proxy is active, ask the renderer to perform the physical move
(`moveOk` is its success/failure answer); on success emit a `moved` record
carrying the parent's `id`, the child's `id` as value, and the post-move
anchor; on failure emit nothing.  Otherwise the renderer is not consulted
and nothing is emitted. -/
def Tag.child_moved (self : Tag) (child : Child) (moveOk : Bool) : MoveCall :=
  if child.isTag && self.proxy_is_active then
    { proxyMoveCalled := true,
      records :=
        if moveOk then
          [{ id := self.id, type := "moved", name := "children",
             value := child.idOf,
             before := anchorAfter self.children child }]
        else [] }
  else { proxyMoveCalled := false, records := [] }

/-- `Tag.child_removed` (html.py lines 180-193): when the removed child is a
`Tag` and the proxy is active, emit a `removed` record carrying the parent's
`id` and the child's `id` as value, with no `before` key. -/
def Tag.child_removed (self : Tag) (child : Child) : List ChangeRecord :=
  if child.isTag && self.proxy_is_active then
    [{ id := self.id, type := "removed", name := "children",
       value := child.idOf, before := none }]
  else []

/-- Whether a node object is the `Html` document subclass or a plain `Tag`
(`isinstance(root, Html)` in `_notify_modified`). -/
inductive NodeKind where
  | html
  | plainTag
  deriving DecidableEq, Repr

/-- Modelled from the spec: `self.root_object()` (enaml framework, not in
src/) finds the tree root by walking parent references; `ancestors` lists
the kinds of the node's proper ancestors from parent to root. -/
def root_object : NodeKind → List NodeKind → NodeKind
  | k, [] => k
  | _, p :: ps => root_object p ps

/-- `Tag._notify_modified` (html.py lines 117-128): look up the tree root;
deliver the record to the root's `modified` event iff that root is an
`Html`; otherwise drop it silently.  Returns the records delivered to the
document. -/
def Tag.notify_modified (selfKind : NodeKind) (ancestors : List NodeKind)
    (change : ChangeRecord) : List ChangeRecord :=
  if root_object selfKind ancestors = NodeKind.html then [change] else []

/-- Association-list lookup for the attribute model. -/
def lookupA : List (String × String) → String → Option String
  | [], _ => none
  | (k, v) :: rest, n => if k = n then some v else lookupA rest n

/-- Association-list update for the attribute model. -/
def setA : List (String × String) → String → String → List (String × String)
  | [], n, v => [(n, v)]
  | (k, w) :: rest, n, v =>
    if k = n then (n, v) :: rest else (k, w) :: setA rest n v

/-- Modelled from the spec: atom observer dispatch (framework, not in src/).
Assigning an observed attribute stores the value on the model and, when the
value actually changed, dispatches the `_update_proxy` handler with an
`update` change event (atom posts change notifications only for actual
changes, which the spec's idempotent-activation property relies on). -/
def Tag.setAttr (self : Tag) (hasSetter : String → Bool)
    (name : String) (value : String) : Tag × List Event :=
  if lookupA self.attrs name = some value then (self, [])
  else
    let s := { self with attrs := setA self.attrs name value }
    (s, s.update_proxy hasSetter "update" name value)

/-- Insert at a position, clamped to the end when past it. -/
def insertAt : List Child → Nat → Child → List Child
  | l, 0, a => a :: l
  | [], _ + 1, a => [a]
  | x :: xs, n + 1, a => x :: insertAt xs n a

/-- Remove the first occurrence, if any. -/
def eraseFirst : List Child → Child → List Child
  | [], _ => []
  | x :: xs, a => if x = a then xs else x :: eraseFirst xs a

/-- Modelled from the spec: the framework's child insertion (enaml `Object`,
not in src/) places the child into the parent's `children` sequence and then
invokes the `child_added` callback on the new sequence. -/
def Tag.addChild (self : Tag) (pos : Nat) (child : Child) :
    Tag × List ChangeRecord :=
  let s := { self with children := insertAt self.children pos child }
  (s, s.child_added child)

/-- Modelled from the spec: the framework's child reorder (enaml `Object`,
not in src/) moves the child to its new position in `children` and then
invokes the `child_moved` callback on the reordered sequence; `moveOk` is
the renderer's success/failure answer for the physical move. -/
def Tag.moveChild (self : Tag) (child : Child) (newPos : Nat)
    (moveOk : Bool) : Tag × MoveCall :=
  let s :=
    { self with children := insertAt (eraseFirst self.children child) newPos child }
  (s, s.child_moved child moveOk)

/-- Modelled from the spec: the framework's child removal (enaml `Object`,
not in src/) detaches the child from the parent's `children` sequence and
then invokes the `child_removed` callback. -/
def Tag.removeChild (self : Tag) (child : Child) : Tag × List ChangeRecord :=
  let s := { self with children := eraseFirst self.children child }
  (s, s.child_removed child)

/-- The `for k, v in kwargs.items(): setattr(self, k, v)` loop of
`Tag.prepare`. -/
def applyKwargs (hasSetter : String → Bool) :
    Tag → List (String × String) → Tag × List Event
  | s, [] => (s, [])
  | s, (n, v) :: rest =>
    let p := Tag.setAttr s hasSetter n v
    let q := applyKwargs hasSetter p.1 rest
    (q.1, p.2 ++ q.2)

/-- Modelled from the spec: `initialize()` (enaml framework, not in src/)
performs the one-time initialization, leaving the object initialized. -/
def initializeTag (s : Tag) : Tag := { s with is_initialized := true }

/-- Modelled from the spec: `activate_proxy()` (enaml framework, not in
src/) activates the renderer, leaving `proxy_is_active` true. -/
def activateProxy (s : Tag) : Tag × List Event :=
  ({ s with proxy_is_active := true }, [Event.proxy ProxyOp.activate])

/-- `Tag.prepare` (html.py lines 215-227): set the given attributes, then
initialize if not yet initialized, then activate the proxy if not yet
active. -/
def Tag.prepare (self : Tag) (hasSetter : String → Bool)
    (kwargs : List (String × String)) : Tag × List Event :=
  let p := applyKwargs hasSetter self kwargs
  let s1 := if p.1.is_initialized then p.1 else initializeTag p.1
  let q := if s1.proxy_is_active then (s1, []) else activateProxy s1
  (q.1, p.2 ++ q.2)

/-- One structural operation on a parent `Tag`: insert a child at a
position, move a child to a new position (with the renderer's answer for
the physical move), or remove a child. -/
inductive Op where
  | add (pos : Nat) (child : Child)
  | move (child : Child) (newPos : Nat) (ok : Bool)
  | remove (child : Child)
  deriving DecidableEq, Repr

/-- Apply one structural operation; each emitted record is paired with the
state in which it was emitted (mutation already applied) and the affected
child. -/
def applyOp (s : Tag) : Op → Tag × List (Tag × Child × ChangeRecord)
  | .add pos c =>
    let p := s.addChild pos c
    (p.1, p.2.map fun r => (p.1, c, r))
  | .move c pos ok =>
    let p := s.moveChild c pos ok
    (p.1, p.2.records.map fun r => (p.1, c, r))
  | .remove c =>
    let p := s.removeChild c
    (p.1, p.2.map fun r => (p.1, c, r))

/-- Run a sequence of structural operations, collecting the annotated
emission trace. -/
def runOps : Tag → List Op → Tag × List (Tag × Child × ChangeRecord)
  | s, [] => (s, [])
  | s, op :: rest =>
    let p := applyOp s op
    let q := runOps p.1 rest
    (q.1, p.2 ++ q.2)

/-- Well-formedness of one operation against the current state: added
children are `Tag`s not already present, moved children are present.  (The
framework only fires the callbacks for genuine insertions and reorders.) -/
def wfOp (s : Tag) : Op → Bool
  | .add _ c => c.isTag && decide (c ∉ s.children)
  | .move c _ _ => decide (c ∈ s.children)
  | .remove _ => true

/-- Well-formedness of an operation sequence, each operation checked in the
state it runs in. -/
def wfOps : Tag → List Op → Bool
  | _, [] => true
  | s, op :: rest => wfOp s op && wfOps (applyOp s op).1 rest

/-! ## Helper lemmas -/

theorem findAnchor_of_all_tags (l : List Child)
    (h : ∀ x ∈ l, x.isTag = true) :
    findAnchor l = l.head?.map Child.idOf := by
  cases l with
  | nil => rfl
  | cons c rest =>
    have hc : c.isTag = true := h c (List.mem_cons_self c rest)
    simp [findAnchor, hc]

theorem findAnchor_eq_some (l : List Child) (b : String)
    (h : findAnchor l = some b) : ∃ m, Child.tag b m ∈ l := by
  induction l with
  | nil => simp [findAnchor] at h
  | cons c rest ih =>
    cases c with
    | tag i m =>
      rw [findAnchor] at h
      simp [Child.isTag, Child.idOf] at h
      exact ⟨m, by simp [h]⟩
    | pattern t =>
      rw [findAnchor] at h
      simp [Child.isTag] at h
      obtain ⟨m, hm⟩ := ih h
      exact ⟨m, List.mem_cons_of_mem _ hm⟩

theorem idxOf_of_not_mem (l : List Child) (a : Child) (h : a ∉ l) :
    idxOf l a = l.length := by
  induction l with
  | nil => rfl
  | cons x xs ih =>
    have hxa : ¬ x = a := fun he => h (he ▸ List.mem_cons_self x xs)
    simp [idxOf, hxa, ih (fun hm => h (List.mem_cons_of_mem _ hm))]

theorem lookupA_setA_self (attrs : List (String × String)) (n v : String) :
    lookupA (setA attrs n v) n = some v := by
  induction attrs with
  | nil => simp [setA, lookupA]
  | cons p rest ih =>
    by_cases hk : p.1 = n
    · simp [setA, hk, lookupA]
    · simp [setA, hk, lookupA, ih]

theorem mem_insertAt (l : List Child) (n : Nat) (a x : Child) :
    x ∈ insertAt l n a ↔ x = a ∨ x ∈ l := by
  induction l generalizing n with
  | nil => cases n <;> simp [insertAt]
  | cons y ys ih =>
    cases n with
    | zero => simp [insertAt]
    | succ m =>
      simp [insertAt, ih]
      tauto

theorem nodup_insertAt (l : List Child) (n : Nat) (a : Child)
    (ha : a ∉ l) (hl : l.Nodup) : (insertAt l n a).Nodup := by
  induction l generalizing n with
  | nil => cases n <;> simp [insertAt]
  | cons y ys ih =>
    rw [List.nodup_cons] at hl
    cases n with
    | zero =>
      rw [insertAt, List.nodup_cons, List.nodup_cons]
      exact ⟨ha, hl⟩
    | succ m =>
      rw [insertAt, List.nodup_cons]
      constructor
      · intro hmem
        rw [mem_insertAt] at hmem
        rcases hmem with h | h
        · exact ha (h ▸ List.mem_cons_self y ys)
        · exact hl.1 h
      · exact ih m (fun hm => ha (List.mem_cons_of_mem _ hm)) hl.2

theorem mem_of_mem_eraseFirst (l : List Child) (a x : Child)
    (h : x ∈ eraseFirst l a) : x ∈ l := by
  induction l with
  | nil => simp [eraseFirst] at h
  | cons y ys ih =>
    by_cases hy : y = a
    · rw [eraseFirst, if_pos hy] at h
      exact List.mem_cons_of_mem _ h
    · rw [eraseFirst, if_neg hy] at h
      rcases List.mem_cons.mp h with h' | h'
      · exact h' ▸ List.mem_cons_self y ys
      · exact List.mem_cons_of_mem _ (ih h')

theorem not_mem_eraseFirst (l : List Child) (a : Child) (hl : l.Nodup) :
    a ∉ eraseFirst l a := by
  induction l with
  | nil => simp [eraseFirst]
  | cons y ys ih =>
    rw [List.nodup_cons] at hl
    by_cases hy : y = a
    · rw [eraseFirst, if_pos hy]
      exact hy ▸ hl.1
    · rw [eraseFirst, if_neg hy]
      intro hmem
      rcases List.mem_cons.mp hmem with h | h
      · exact hy h.symm
      · exact ih hl.2 h

theorem nodup_eraseFirst (l : List Child) (a : Child) (hl : l.Nodup) :
    (eraseFirst l a).Nodup := by
  induction l with
  | nil => simp [eraseFirst]
  | cons y ys ih =>
    rw [List.nodup_cons] at hl
    by_cases hy : y = a
    · rw [eraseFirst, if_pos hy]; exact hl.2
    · rw [eraseFirst, if_neg hy, List.nodup_cons]
      exact ⟨fun hm => hl.1 (mem_of_mem_eraseFirst ys a y hm), ih hl.2⟩

theorem applyKwargs_no_change (hasSetter : String → Bool) (s : Tag) :
    ∀ kwargs : List (String × String),
      (∀ p ∈ kwargs, lookupA s.attrs p.1 = some p.2) →
      applyKwargs hasSetter s kwargs = (s, []) := by
  intro kwargs
  induction kwargs with
  | nil => intro _; rfl
  | cons p rest ih =>
    intro hvals
    obtain ⟨n, v⟩ := p
    have h1 : Tag.setAttr s hasSetter n v = (s, []) := by
      rw [Tag.setAttr, if_pos (hvals (n, v) (List.mem_cons_self _ _))]
    simp [applyKwargs, h1,
      ih (fun q hq => hvals q (List.mem_cons_of_mem _ hq))]

/-! ## Claim theorems -/

/-- C10: an observed-attribute change event whose type is not `update` (such
as the `create` event for a freshly computed default) never updates the
renderer and never emits a change record, even while the renderer is active;
only `update` events can produce an update record. -/
theorem non_update_event_is_ignored (self : Tag) (hasSetter : String → Bool)
    (t name value : String) (h : t ≠ "update") :
    Tag.update_proxy self hasSetter t name value = [] := by
  simp [Tag.update_proxy, h]

/-- Witness for C10 at a concrete active tag and a `create` event. -/
theorem non_update_event_is_ignored_witness :
    Tag.update_proxy
      { id := "b", attrs := [], children := [], is_initialized := true,
        proxy_is_active := true }
      (fun _ => true) "create" "text" "x" = [] :=
  non_update_event_is_ignored _ _ _ _ _ (by decide)

/-- C3: assigning a new value to an observed attribute of an active Tag
produces exactly one renderer call followed by exactly one `update` change
record carrying the attribute's name and the new value; the renderer call
uses the attribute-specific setter `set_<name>` when the renderer exposes
one and the generic `set_attribute` fallback otherwise. -/
theorem update_record_and_setter_dispatch (self : Tag)
    (hasSetter : String → Bool) (name value : String)
    (hactive : self.proxy_is_active = true)
    (hnew : lookupA self.attrs name ≠ some value) :
    (Tag.setAttr self hasSetter name value).2 =
      [Event.proxy
        (if hasSetter name then ProxyOp.setSpecific name value
         else ProxyOp.setAttribute name value),
       Event.emit
        { id := self.id, type := "update", name := name, value := value,
          before := none }] := by
  rw [Tag.setAttr, if_neg hnew]
  simp [Tag.update_proxy, hactive]

/-- Witness for C3 at a concrete active tag whose renderer has no specific
setter for `text`. -/
theorem update_record_and_setter_dispatch_witness :
    (Tag.setAttr
      { id := "b", attrs := [("text", "old")], children := [],
        is_initialized := true, proxy_is_active := true }
      (fun _ => false) "text" "new").2 =
      [Event.proxy
        (if (fun (_ : String) => false) "text" then
          ProxyOp.setSpecific "text" "new"
         else ProxyOp.setAttribute "text" "new"),
       Event.emit
        { id := "b", type := "update", name := "text", value := "new",
          before := none }] :=
  update_record_and_setter_dispatch _ _ _ _ (by decide) (by decide)

/-- C9: a change record is delivered, unchanged, to the tree root exactly
when that root is an `Html` document; when the root is not a document the
record is silently discarded (nothing is delivered and no error occurs). -/
theorem delivery_iff_root_is_document (k : NodeKind) (anc : List NodeKind)
    (c c' : ChangeRecord) :
    c' ∈ Tag.notify_modified k anc c ↔
      c' = c ∧ root_object k anc = NodeKind.html := by
  rw [Tag.notify_modified]
  by_cases h : root_object k anc = NodeKind.html
  · simp [h]
  · simp [h]

/-- C4: on a Tag whose renderer is inactive, attribute assignment and child
add/move/remove produce zero change records and zero renderer calls, while
the model state (attribute values and the children sequence) still reflects
each mutation. -/
theorem silent_while_inactive (self : Tag) (hasSetter : String → Bool)
    (name value : String) (pos newPos : Nat) (child : Child) (ok : Bool)
    (hinactive : self.proxy_is_active = false) :
    ((Tag.setAttr self hasSetter name value).2 = [] ∧
      lookupA (Tag.setAttr self hasSetter name value).1.attrs name =
        some value) ∧
    ((Tag.addChild self pos child).2 = [] ∧
      (Tag.addChild self pos child).1.children =
        insertAt self.children pos child) ∧
    ((Tag.moveChild self child newPos ok).2.records = [] ∧
      (Tag.moveChild self child newPos ok).1.children =
        insertAt (eraseFirst self.children child) newPos child) ∧
    ((Tag.removeChild self child).2 = [] ∧
      (Tag.removeChild self child).1.children =
        eraseFirst self.children child) := by
  refine ⟨⟨?_, ?_⟩, ⟨?_, ?_⟩, ⟨?_, ?_⟩, ⟨?_, ?_⟩⟩
  · by_cases h : lookupA self.attrs name = some value
    · rw [Tag.setAttr, if_pos h]
    · rw [Tag.setAttr, if_neg h]
      simp [Tag.update_proxy, hinactive]
  · by_cases h : lookupA self.attrs name = some value
    · rw [Tag.setAttr, if_pos h]; exact h
    · rw [Tag.setAttr, if_neg h]
      simp [lookupA_setA_self]
  · simp [Tag.addChild, Tag.child_added, hinactive]
  · simp [Tag.addChild]
  · simp [Tag.moveChild, Tag.child_moved, hinactive]
  · simp [Tag.moveChild]
  · simp [Tag.removeChild, Tag.child_removed, hinactive]
  · simp [Tag.removeChild]

/-- Witness for C4 at a concrete inactive tag. -/
theorem silent_while_inactive_witness :
    ((Tag.setAttr
        { id := "p", attrs := [], children := [Child.tag "a" "<a/>"],
          is_initialized := false, proxy_is_active := false }
        (fun _ => true) "text" "v").2 = [] ∧
      lookupA (Tag.setAttr
        { id := "p", attrs := [], children := [Child.tag "a" "<a/>"],
          is_initialized := false, proxy_is_active := false }
        (fun _ => true) "text" "v").1.attrs "text" = some "v") ∧
    ((Tag.addChild
        { id := "p", attrs := [], children := [Child.tag "a" "<a/>"],
          is_initialized := false, proxy_is_active := false }
        1 (Child.tag "b" "<b/>")).2 = [] ∧
      (Tag.addChild
        { id := "p", attrs := [], children := [Child.tag "a" "<a/>"],
          is_initialized := false, proxy_is_active := false }
        1 (Child.tag "b" "<b/>")).1.children =
        insertAt [Child.tag "a" "<a/>"] 1 (Child.tag "b" "<b/>")) ∧
    ((Tag.moveChild
        { id := "p", attrs := [], children := [Child.tag "a" "<a/>"],
          is_initialized := false, proxy_is_active := false }
        (Child.tag "b" "<b/>") 0 true).2.records = [] ∧
      (Tag.moveChild
        { id := "p", attrs := [], children := [Child.tag "a" "<a/>"],
          is_initialized := false, proxy_is_active := false }
        (Child.tag "b" "<b/>") 0 true).1.children =
        insertAt (eraseFirst [Child.tag "a" "<a/>"] (Child.tag "b" "<b/>"))
          0 (Child.tag "b" "<b/>")) ∧
    ((Tag.removeChild
        { id := "p", attrs := [], children := [Child.tag "a" "<a/>"],
          is_initialized := false, proxy_is_active := false }
        (Child.tag "b" "<b/>")).2 = [] ∧
      (Tag.removeChild
        { id := "p", attrs := [], children := [Child.tag "a" "<a/>"],
          is_initialized := false, proxy_is_active := false }
        (Child.tag "b" "<b/>")).1.children =
        eraseFirst [Child.tag "a" "<a/>"] (Child.tag "b" "<b/>")) :=
  silent_while_inactive _ (fun _ => true) "text" "v" 1 0
    (Child.tag "b" "<b/>") true (by decide)

/-- C7: a non-Tag ("pattern") child never produces a change record when
inserted, moved or removed, on any parent (active or not); and the `before`
anchor of any added or moved record always names a Tag child of the
parent's children sequence, so a non-Tag child is never selected as
anchor. -/
theorem pattern_transparency (self : Tag) (child : Child)
    (pos newPos : Nat) (ok : Bool)
    (hpat : child.isTag = false) :
    (Tag.addChild self pos child).2 = [] ∧
    (Tag.moveChild self child newPos ok).2.records = [] ∧
    (Tag.removeChild self child).2 = [] ∧
    (∀ c r b,
      (r ∈ Tag.child_added self c ∨
        r ∈ (Tag.child_moved self c ok).records) →
      r.before = some b → ∃ m, Child.tag b m ∈ self.children) := by
  refine ⟨?_, ?_, ?_, ?_⟩
  · simp [Tag.addChild, Tag.child_added, hpat]
  · simp [Tag.moveChild, Tag.child_moved, hpat]
  · simp [Tag.removeChild, Tag.child_removed, hpat]
  · intro c r b hmem hb
    have hanchor : anchorAfter self.children c = some b := by
      rcases hmem with h | h
      · rw [Tag.child_added] at h
        split at h
        · simp at h
          rw [h] at hb
          exact hb
        · simp at h
      · rw [Tag.child_moved] at h
        split at h
        · simp only [MoveCall.records] at h
          split at h
          · simp at h
            rw [h] at hb
            exact hb
          · simp at h
        · simp [MoveCall.records] at h
    rw [anchorAfter] at hanchor
    obtain ⟨m, hm⟩ := findAnchor_eq_some _ _ hanchor
    exact ⟨m, List.mem_of_mem_drop hm⟩

/-- Witness for C7 at a concrete parent and pattern child. -/
theorem pattern_transparency_witness :
    (Tag.addChild
      { id := "p", attrs := [], children := [Child.tag "a" "<a/>"],
        is_initialized := true, proxy_is_active := true }
      0 (Child.pattern 7)).2 = [] ∧
    (Tag.moveChild
      { id := "p", attrs := [], children := [Child.tag "a" "<a/>"],
        is_initialized := true, proxy_is_active := true }
      (Child.pattern 7) 1 true).2.records = [] ∧
    (Tag.removeChild
      { id := "p", attrs := [], children := [Child.tag "a" "<a/>"],
        is_initialized := true, proxy_is_active := true }
      (Child.pattern 7)).2 = [] ∧
    (∀ c r b,
      (r ∈ Tag.child_added
        { id := "p", attrs := [], children := [Child.tag "a" "<a/>"],
          is_initialized := true, proxy_is_active := true } c ∨
        r ∈ (Tag.child_moved
          { id := "p", attrs := [], children := [Child.tag "a" "<a/>"],
            is_initialized := true, proxy_is_active := true } c true).records) →
      r.before = some b →
      ∃ m, Child.tag b m ∈ [Child.tag "a" "<a/>"]) :=
  pattern_transparency _ (Child.pattern 7) 0 1 true (by decide)

/-- C8: `prepare()` is idempotent with respect to activation: on a Tag that
is already initialized and active, and whose attributes already hold the
given values, `prepare()` leaves the state unchanged, performs no
re-initialization or re-activation, and emits no renderer call and no
change record. -/
theorem prepare_idempotent (self : Tag) (hasSetter : String → Bool)
    (kwargs : List (String × String))
    (hinit : self.is_initialized = true)
    (hactive : self.proxy_is_active = true)
    (hvals : ∀ p ∈ kwargs, lookupA self.attrs p.1 = some p.2) :
    Tag.prepare self hasSetter kwargs = (self, []) := by
  have hk := applyKwargs_no_change hasSetter self kwargs hvals
  rw [Tag.prepare, hk]
  simp [hinit, hactive]

/-- Witness for C8 at a concrete initialized, active tag. -/
theorem prepare_idempotent_witness :
    Tag.prepare
      { id := "p", attrs := [("text", "hi")], children := [],
        is_initialized := true, proxy_is_active := true }
      (fun _ => true) [("text", "hi")] =
      ({ id := "p", attrs := [("text", "hi")], children := [],
         is_initialized := true, proxy_is_active := true }, []) :=
  prepare_idempotent _ _ _ (by decide) (by decide) (by decide)

/-- C1 counterexample: on an active parent with id `p`, adding the Tag
child with id `c` emits a record whose id field is not the child's id (the
source stores the parent's `self.id`). -/
theorem added_record_id_counterexample :
    ¬ (∀ r ∈ (Tag.addChild
        { id := "p", attrs := [], children := [], is_initialized := true,
          proxy_is_active := true } 0 (Child.tag "c" "<c/>")).2,
        r.id = "c") := by decide

/-- C1 (amended): for every active parent Tag, adding a Tag child emits
exactly one change record whose id field equals the PARENT's id, whose type
is `added`, whose name is `children`, whose value is the child's rendered
markup, and whose before field (when present) is the anchor id found by
scanning the children after the child's position. -/
theorem added_record_fields (self : Tag) (pos : Nat) (cid m : String)
    (hactive : self.proxy_is_active = true) :
    (Tag.addChild self pos (Child.tag cid m)).2 =
      [{ id := self.id, type := "added", name := "children", value := m,
         before := anchorAfter
           (insertAt self.children pos (Child.tag cid m))
           (Child.tag cid m) }] := by
  simp [Tag.addChild, Tag.child_added, Child.isTag, Child.markupOf, hactive]

/-- Witness for C1's amended statement, at the spec's Scenario 2: insert
`C` between `A` and `B` on an active parent. -/
theorem added_record_fields_witness :
    (Tag.addChild
      { id := "p", attrs := [],
        children := [Child.tag "a" "<a/>", Child.tag "b" "<b/>"],
        is_initialized := true, proxy_is_active := true }
      1 (Child.tag "c" "<c/>")).2 =
      [{ id := "p", type := "added", name := "children", value := "<c/>",
         before := anchorAfter
           (insertAt [Child.tag "a" "<a/>", Child.tag "b" "<b/>"] 1
             (Child.tag "c" "<c/>"))
           (Child.tag "c" "<c/>") }] :=
  added_record_fields _ _ _ _ (by decide)

/-- C5 counterexample: a successful move of the Tag child with id `c` on an
active parent with id `p` emits a record whose id field is not the child's
id (the source stores the parent's `self.id`). -/
theorem moved_record_id_counterexample :
    ¬ (∀ r ∈ (Tag.moveChild
        { id := "p", attrs := [],
          children := [Child.tag "c" "<c/>", Child.tag "a" "<a/>"],
          is_initialized := true, proxy_is_active := true }
        (Child.tag "c" "<c/>") 1 true).2.records,
        r.id = "c") := by decide

/-- C5 (amended): moving a Tag child of an active parent always invokes the
renderer's `child_moved`; on failure no record is emitted (the model-level
reorder stands); on success exactly one record is emitted whose id field is
the PARENT's id, type `moved`, name `children`, value the child's id, and
before the anchor resolved from the post-move position. -/
theorem moved_record_fields (self : Tag) (newPos : Nat) (cid m : String)
    (ok : Bool) (hactive : self.proxy_is_active = true) :
    (Tag.moveChild self (Child.tag cid m) newPos ok).2.proxyMoveCalled =
      true ∧
    (ok = false →
      (Tag.moveChild self (Child.tag cid m) newPos ok).2.records = []) ∧
    (ok = true →
      (Tag.moveChild self (Child.tag cid m) newPos ok).2.records =
        [{ id := self.id, type := "moved", name := "children", value := cid,
           before := anchorAfter
             (insertAt (eraseFirst self.children (Child.tag cid m)) newPos
               (Child.tag cid m))
             (Child.tag cid m) }]) := by
  refine ⟨?_, ?_, ?_⟩
  · simp [Tag.moveChild, Tag.child_moved, Child.isTag, hactive]
  · intro hok
    simp [Tag.moveChild, Tag.child_moved, Child.isTag, hactive, hok]
  · intro hok
    simp [Tag.moveChild, Tag.child_moved, Child.isTag, Child.idOf, hactive,
      hok]

/-- Witness for C5's amended statement: move `C` to the end of an active
parent's children with a succeeding renderer move. -/
theorem moved_record_fields_witness :
    (Tag.moveChild
      { id := "p", attrs := [],
        children := [Child.tag "c" "<c/>", Child.tag "a" "<a/>"],
        is_initialized := true, proxy_is_active := true }
      (Child.tag "c" "<c/>") 1 true).2.proxyMoveCalled = true ∧
    (true = false →
      (Tag.moveChild
        { id := "p", attrs := [],
          children := [Child.tag "c" "<c/>", Child.tag "a" "<a/>"],
          is_initialized := true, proxy_is_active := true }
        (Child.tag "c" "<c/>") 1 true).2.records = []) ∧
    (true = true →
      (Tag.moveChild
        { id := "p", attrs := [],
          children := [Child.tag "c" "<c/>", Child.tag "a" "<a/>"],
          is_initialized := true, proxy_is_active := true }
        (Child.tag "c" "<c/>") 1 true).2.records =
        [{ id := "p", type := "moved", name := "children", value := "c",
           before := anchorAfter
             (insertAt
               (eraseFirst [Child.tag "c" "<c/>", Child.tag "a" "<a/>"]
                 (Child.tag "c" "<c/>")) 1
               (Child.tag "c" "<c/>"))
             (Child.tag "c" "<c/>") }]) :=
  moved_record_fields _ 1 "c" "<c/>" true (by decide)

/-- C6 counterexample: removing the Tag child with id `a` from an active
parent with id `p` emits a record whose id field is not the child's id (the
source stores the parent's `self.id`). -/
theorem removed_record_id_counterexample :
    ¬ (∀ r ∈ (Tag.removeChild
        { id := "p", attrs := [], children := [Child.tag "a" "<a/>"],
          is_initialized := true, proxy_is_active := true }
        (Child.tag "a" "<a/>")).2,
        r.id = "a") := by decide

/-- C6 (amended): removing a Tag child from an active parent emits exactly
one record whose id field is the PARENT's id, type `removed`, name
`children`, value the child's id, with no before field; and the child is
already detached from the parent's children sequence when the record is
built. -/
theorem removed_record_fields (self : Tag) (cid m : String)
    (hactive : self.proxy_is_active = true)
    (hnd : self.children.Nodup) :
    (Tag.removeChild self (Child.tag cid m)).2 =
      [{ id := self.id, type := "removed", name := "children", value := cid,
         before := none }] ∧
    Child.tag cid m ∉ (Tag.removeChild self (Child.tag cid m)).1.children := by
  constructor
  · simp [Tag.removeChild, Tag.child_removed, Child.isTag, Child.idOf,
      hactive]
  · show Child.tag cid m ∉ eraseFirst self.children (Child.tag cid m)
    exact not_mem_eraseFirst _ _ hnd

/-- Witness for C6's amended statement, at the spec's Scenario 4: remove
`A` from an active parent. -/
theorem removed_record_fields_witness :
    (Tag.removeChild
      { id := "p", attrs := [],
        children := [Child.tag "a" "<a/>", Child.tag "b" "<b/>"],
        is_initialized := true, proxy_is_active := true }
      (Child.tag "a" "<a/>")).2 =
      [{ id := "p", type := "removed", name := "children", value := "a",
         before := none }] ∧
    Child.tag "a" "<a/>" ∉
      (Tag.removeChild
        { id := "p", attrs := [],
          children := [Child.tag "a" "<a/>", Child.tag "b" "<b/>"],
          is_initialized := true, proxy_is_active := true }
        (Child.tag "a" "<a/>")).1.children :=
  removed_record_fields _ "a" "<a/>" (by decide) (by decide)

/-! ## Anchor correctness over operation sequences (C2) -/

theorem anchorAfter_of_all_tags (l : List Child) (c : Child)
    (hTags : ∀ x ∈ l, x.isTag = true) :
    anchorAfter l c = (l.drop (idxOf l c + 1)).head?.map Child.idOf := by
  rw [anchorAfter]
  exact findAnchor_of_all_tags _
    (fun x hx => hTags x (List.mem_of_mem_drop hx))

theorem anchor_spec_of_all_tags (l : List Child) (c : Child)
    (hTags : ∀ x ∈ l, x.isTag = true) :
    anchorAfter l c = (l.drop (idxOf l c + 1)).head?.map Child.idOf ∧
    (anchorAfter l c = none ↔ l.drop (idxOf l c + 1) = []) := by
  have h1 := anchorAfter_of_all_tags l c hTags
  refine ⟨h1, ?_⟩
  rw [h1, Option.map_eq_none', List.head?_eq_none_iff]

theorem applyOp_invariants (s : Tag) (op : Op)
    (hTags : ∀ x ∈ s.children, x.isTag = true)
    (hNodup : s.children.Nodup)
    (hwf : wfOp s op = true) :
    (∀ x ∈ (applyOp s op).1.children, x.isTag = true) ∧
    (applyOp s op).1.children.Nodup ∧
    (applyOp s op).1.proxy_is_active = s.proxy_is_active := by
  cases op with
  | add pos c =>
    rw [wfOp, Bool.and_eq_true, decide_eq_true_eq] at hwf
    refine ⟨?_, ?_, rfl⟩
    · intro x hx
      simp only [applyOp, Tag.addChild] at hx
      rw [mem_insertAt] at hx
      rcases hx with h | h
      · exact h ▸ hwf.1
      · exact hTags x h
    · simp only [applyOp, Tag.addChild]
      exact nodup_insertAt _ _ _ hwf.2 hNodup
  | move c pos ok =>
    refine ⟨?_, ?_, rfl⟩
    · intro x hx
      simp only [applyOp, Tag.moveChild] at hx
      rw [mem_insertAt] at hx
      rcases hx with h | h
      · rw [wfOp, decide_eq_true_eq] at hwf
        exact h ▸ hTags c hwf
      · exact hTags x (mem_of_mem_eraseFirst _ _ _ h)
    · simp only [applyOp, Tag.moveChild]
      exact nodup_insertAt _ _ _ (not_mem_eraseFirst _ _ hNodup)
        (nodup_eraseFirst _ _ hNodup)
  | remove c =>
    refine ⟨?_, ?_, rfl⟩
    · intro x hx
      simp only [applyOp, Tag.removeChild] at hx
      exact hTags x (mem_of_mem_eraseFirst _ _ _ hx)
    · simp only [applyOp, Tag.removeChild]
      exact nodup_eraseFirst _ _ hNodup

theorem applyOp_anchor (s : Tag) (op : Op)
    (hTags : ∀ x ∈ s.children, x.isTag = true)
    (hNodup : s.children.Nodup)
    (hwf : wfOp s op = true) :
    ∀ t ∈ (applyOp s op).2,
      t.2.2.before =
        (t.1.children.drop (idxOf t.1.children t.2.1 + 1)).head?.map
          Child.idOf ∧
      (t.2.2.before = none ↔
        t.1.children.drop (idxOf t.1.children t.2.1 + 1) = []) := by
  intro t hmem
  have hinv := applyOp_invariants s op hTags hNodup hwf
  cases op with
  | add pos c =>
    simp only [applyOp, Tag.addChild, List.mem_map] at hmem
    obtain ⟨r0, hr0, rfl⟩ := hmem
    rw [Tag.child_added] at hr0
    split at hr0
    · simp only [List.mem_singleton] at hr0
      subst hr0
      refine anchor_spec_of_all_tags _ _ ?_
      have := hinv.1
      simpa only [applyOp, Tag.addChild] using this
    · simp at hr0
  | move c pos ok =>
    simp only [applyOp, Tag.moveChild, List.mem_map] at hmem
    obtain ⟨r0, hr0, rfl⟩ := hmem
    rw [Tag.child_moved] at hr0
    split at hr0
    · simp only [MoveCall.records] at hr0
      split at hr0
      · simp only [List.mem_singleton] at hr0
        subst hr0
        refine anchor_spec_of_all_tags _ _ ?_
        have := hinv.1
        simpa only [applyOp, Tag.moveChild] using this
      · simp at hr0
    · simp [MoveCall.records] at hr0
  | remove c =>
    simp only [applyOp, Tag.removeChild, List.mem_map] at hmem
    obtain ⟨r0, hr0, rfl⟩ := hmem
    rw [Tag.child_removed] at hr0
    split at hr0
    · simp only [List.mem_singleton] at hr0
      subst hr0
      have hgone : c ∉ eraseFirst s.children c :=
        not_mem_eraseFirst _ _ hNodup
      have hidx : idxOf (eraseFirst s.children c) c =
          (eraseFirst s.children c).length :=
        idxOf_of_not_mem _ _ hgone
      have hdrop : (eraseFirst s.children c).drop
          (idxOf (eraseFirst s.children c) c + 1) = [] := by
        rw [hidx]
        exact List.drop_eq_nil_of_le (Nat.le_succ _)
      constructor
      · show (none : Option String) = _
        rw [hdrop]
        rfl
      · show (none : Option String) = none ↔ _
        rw [hdrop]
        simp
    · simp at hr0

/-- C2: for every sequence of add/move/remove operations on an active
parent Tag whose children are all Tags (adds insert fresh Tag children,
moves reorder present children), each record of the emission trace has a
before field equal to the id of the nearest sibling following the affected
child at the time of the operation (the mutation already applied), and the
before field is absent exactly when no such following sibling exists. -/
theorem anchor_correctness (s : Tag) (ops : List Op) (st : Tag) (c : Child)
    (r : ChangeRecord)
    (hTags : ∀ x ∈ s.children, x.isTag = true)
    (hNodup : s.children.Nodup)
    (hactive : s.proxy_is_active = true)
    (hwf : wfOps s ops = true)
    (hmem : (st, c, r) ∈ (runOps s ops).2) :
    r.before =
      (st.children.drop (idxOf st.children c + 1)).head?.map Child.idOf ∧
    (r.before = none ↔ st.children.drop (idxOf st.children c + 1) = []) := by
  revert hmem hwf hactive hNodup hTags
  revert s
  induction ops with
  | nil =>
    intro s hTags hNodup hactive hwf hmem
    simp [runOps] at hmem
  | cons op rest ih =>
    intro s hTags hNodup hactive hwf hmem
    rw [wfOps, Bool.and_eq_true] at hwf
    simp only [runOps, List.mem_append] at hmem
    rcases hmem with h | h
    · exact applyOp_anchor s op hTags hNodup hwf.1 (st, c, r) h
    · have hinv := applyOp_invariants s op hTags hNodup hwf.1
      exact ih (applyOp s op).1 hinv.1 hinv.2.1
        (hinv.2.2.trans hactive) hwf.2 h

/-- Witness for C2: an add, a successful move and a removal on an active
parent with two Tag children, checked against the trace. -/
theorem anchor_correctness_witness :
    ((({ id := "p", attrs := [],
         children :=
           [Child.tag "a" "<a/>", Child.tag "c" "<c/>", Child.tag "b" "<b/>"],
         is_initialized := true, proxy_is_active := true } : Tag),
      Child.tag "c" "<c/>",
      ({ id := "p", type := "added", name := "children", value := "<c/>",
         before := some "b" } : ChangeRecord)) :
        Tag × Child × ChangeRecord) ∈
      (runOps
        { id := "p", attrs := [],
          children := [Child.tag "a" "<a/>", Child.tag "b" "<b/>"],
          is_initialized := true, proxy_is_active := true }
        [Op.add 1 (Child.tag "c" "<c/>"),
         Op.move (Child.tag "c" "<c/>") 2 true,
         Op.remove (Child.tag "a" "<a/>")]).2 ∧
    (some "b" : Option String) =
      (([Child.tag "a" "<a/>", Child.tag "c" "<c/>", Child.tag "b" "<b/>"].drop
        (idxOf
          [Child.tag "a" "<a/>", Child.tag "c" "<c/>", Child.tag "b" "<b/>"]
          (Child.tag "c" "<c/>") + 1)).head?).map Child.idOf :=
  ⟨by decide,
    (anchor_correctness
      { id := "p", attrs := [],
        children := [Child.tag "a" "<a/>", Child.tag "b" "<b/>"],
        is_initialized := true, proxy_is_active := true }
      [Op.add 1 (Child.tag "c" "<c/>"),
       Op.move (Child.tag "c" "<c/>") 2 true,
       Op.remove (Child.tag "a" "<a/>")]
      { id := "p", attrs := [],
        children :=
          [Child.tag "a" "<a/>", Child.tag "c" "<c/>", Child.tag "b" "<b/>"],
        is_initialized := true, proxy_is_active := true }
      (Child.tag "c" "<c/>")
      { id := "p", type := "added", name := "children", value := "<c/>",
        before := some "b" }
      (by decide) (by decide) (by decide) (by decide) (by decide)).1⟩

end EnamlWeb
